import Mathlib

/-!
Shallow embedding of the DEFLATE codec of the gzip-rust repository
(src/deflate.rs, src/inflate.rs, src/trees.rs, src/main.rs), together with
theorems settling the specification claims.  Definitions are transcribed
from the Rust source; machine integers are modelled as `Nat`/`Int`, loops
as structural recursion (fuel where the source loop has no structural
measure), and fallible paths (gzip_error, panics) as `Option`/markers.
-/

/-- Window size: src/main.rs line 126 (`WSIZE = 0x8000`), also
    src/deflate.rs line 7. -/
def WSIZE : Nat := 0x8000

/-- Input buffer size, src/main.rs line 127. -/
def INBUFSIZ : Nat := 0x8000

/-- src/deflate.rs line 13. -/
def MAX_DIST : Nat := 16384

/-- src/deflate.rs line 14. -/
def MAX_MATCH : Nat := 258

/-- src/deflate.rs line 10. -/
def MIN_MATCH : Nat := 3

/-- src/deflate.rs line 9. -/
def MIN_LOOKAHEAD : Nat := 262

/-- src/deflate.rs line 17. -/
def WINDOW_SIZE : Nat := 2 * WSIZE

/-- src/deflate.rs line 8. -/
def WMASK : Nat := WSIZE - 1

/-! ## Compressor configuration (src/deflate.rs lines 19-51, 93-139, 205-211) -/

/-- One row of the configuration table, src/deflate.rs lines 31-51.
    The constructor argument order follows `Config::new(max_lazy,
    good_length, nice_length, max_chain)` as written in the source. -/
structure Config where
  max_lazy : Nat
  good_length : Nat
  nice_length : Nat
  max_chain : Nat
deriving DecidableEq

/-- The fixed 10-row configuration table, src/deflate.rs lines 19-29. -/
def CONFIGURATION_TABLE : List Config :=
  [⟨0, 0, 0, 0⟩,
   ⟨4, 4, 8, 4⟩,
   ⟨4, 5, 16, 8⟩,
   ⟨4, 6, 32, 32⟩,
   ⟨4, 4, 16, 16⟩,
   ⟨8, 16, 32, 32⟩,
   ⟨8, 16, 128, 128⟩,
   ⟨8, 32, 128, 256⟩,
   ⟨32, 128, 258, 1024⟩,
   ⟨32, 258, 258, 4096⟩]

/-- Deflate::lm_init, src/deflate.rs lines 93-111: a pack_level outside
    1..9 aborts via `state.gzip_error("bad pack level")` (modelled as
    `none`); otherwise `(max_lazy_match, good_match, nice_match,
    max_chain_length)` are copied from `CONFIGURATION_TABLE[pack_level]`. -/
def lm_init_config (pack_level : Int) : Option Config :=
  if pack_level < 1 ∨ pack_level > 9 then none
  else CONFIGURATION_TABLE.get? pack_level.toNat

/-- Outcome of Deflate::deflate, src/deflate.rs lines 205-211. -/
inductive DeflatePath where
  /-- the greedy path: `deflate_fast`, taken when `compr_level <= 3` -/
  | fast : DeflatePath
  /-- the lazy-match branch, which in the source is `unimplemented!()`
      and panics -/
  | lazyUnimplemented : DeflatePath
deriving DecidableEq

/-- Deflate::deflate, src/deflate.rs lines 205-211: `compr_level <= 3`
    runs `deflate_fast` (greedy, no lazy matching); any other level falls
    through to `unimplemented!()`. -/
def deflate_dispatch (compr_level : Int) : DeflatePath :=
  if compr_level ≤ 3 then .fast else .lazyUnimplemented

/-! ## Decoder byte reader (src/inflate.rs lines 133-156, 201-210) -/

/-- Inflate::fill_inbuf, src/inflate.rs lines 133-156, reading from the
    byte source `cursor` with the input buffer initially empty
    (`insize = 0`): it loops reading until the source is exhausted or the
    buffer is full, then returns 0xFF when nothing was read and `eof_ok`,
    an UnexpectedEof error when nothing was read and not `eof_ok`, and
    the first byte read otherwise. -/
def fill_inbuf (cursor : List Nat) (eof_ok : Bool) : Except Unit Nat :=
  let insize := min cursor.length INBUFSIZ
  if insize = 0 then
    if eof_ok then .ok 0xFF else .error ()
  else
    .ok (cursor.headD 0)

/-- Inflate::get_byte, src/inflate.rs lines 201-210: if `inptr < insize`
    the next buffered byte is returned; otherwise the source calls
    `fill_inbuf` on a freshly created one-byte cursor `vec![0; 1]` with
    `eof_ok = true`. -/
def get_byte (inptr insize : Nat) (inbuf : Nat → Nat) : Except Unit Nat :=
  if inptr < insize then .ok (inbuf inptr)
  else fill_inbuf [0] true

/-! ## Claim C1 -/

/-- C1: the claim asserts `inflate(deflate(b, level)) == b` for every
    compression level 1..9.  The code cannot satisfy this: for every
    level 4..9 `lm_init` accepts the level, but `Deflate::deflate`
    (src/deflate.rs lines 205-211) falls into the `unimplemented!()`
    branch and panics, so no compressed output exists to decompress. -/
theorem C1_deflate_panics_for_levels_4_to_9 (l : Int) (h4 : 4 ≤ l) (h9 : l ≤ 9) :
    (lm_init_config l).isSome = true ∧
    deflate_dispatch l = DeflatePath.lazyUnimplemented := by
  constructor
  · have h1 : ¬ (l < 1 ∨ l > 9) := by omega
    unfold lm_init_config
    rw [if_neg h1]
    interval_cases l <;> decide
  · unfold deflate_dispatch
    rw [if_neg (by omega)]

/-- Witness for C1: at level 4 the compressor is initialized successfully
    yet `deflate` takes the panicking `unimplemented!()` branch. -/
theorem C1_witness :
    (lm_init_config 4).isSome = true ∧
    deflate_dispatch 4 = DeflatePath.lazyUnimplemented :=
  C1_deflate_panics_for_levels_4_to_9 4 (by decide) (by decide)

/-! ## Claim C7 -/

/-- C7: initializing the compressor with a level 1..9 selects the
    parameters from the fixed 10-row configuration table; the
    max_chain_length is 4 at level 1 and 4096 at level 9; levels 1..3 are
    dispatched to the greedy `deflate_fast` path (no lazy matching) while
    levels 4..9 go to the lazy-matching branch; a level outside 1..9 is
    rejected as an error (`gzip_error "bad pack level"`). -/
theorem C7_lm_init_configuration (l : Int) (h1 : 1 ≤ l) (h9 : l ≤ 9) :
    lm_init_config l = CONFIGURATION_TABLE.get? l.toNat ∧
    (lm_init_config 1 = some ⟨4, 4, 8, 4⟩ ∧ (⟨4, 4, 8, 4⟩ : Config).max_chain = 4) ∧
    (lm_init_config 9 = some ⟨32, 258, 258, 4096⟩ ∧
      (⟨32, 258, 258, 4096⟩ : Config).max_chain = 4096) ∧
    (l ≤ 3 → deflate_dispatch l = DeflatePath.fast) ∧
    (4 ≤ l → deflate_dispatch l = DeflatePath.lazyUnimplemented) ∧
    (∀ l2 : Int, l2 < 1 ∨ l2 > 9 → lm_init_config l2 = none) := by
  refine ⟨?_, ⟨by decide, rfl⟩, ⟨by decide, rfl⟩, ?_, ?_, ?_⟩
  · unfold lm_init_config
    rw [if_neg (by omega)]
  · intro h3
    unfold deflate_dispatch
    rw [if_pos h3]
  · intro h4
    unfold deflate_dispatch
    rw [if_neg (by omega)]
  · intro l2 hl2
    unfold lm_init_config
    rw [if_pos hl2]

/-- Witness for C7 at level 1: the selected row is `(4, 4, 8, 4)` with
    max_chain_length 4, and the dispatch is the greedy fast path. -/
theorem C7_witness :
    lm_init_config 1 = some ⟨4, 4, 8, 4⟩ ∧
    deflate_dispatch 1 = DeflatePath.fast :=
  ⟨(C7_lm_init_configuration 1 (by decide) (by decide)).2.1.1,
   (C7_lm_init_configuration 1 (by decide) (by decide)).2.2.2.1 (by decide)⟩

/-! ## Claim C10 -/

/-- C10 counterexample: the claim says that the byte reader returns 0xFF
    once the input source is exhausted.  In fact `get_byte` calls
    `fill_inbuf` on a freshly made one-byte cursor `vec![0; 1]`
    (src/inflate.rs line 207), which always supplies the single byte 0,
    so the reader returns 0x00, never reaching the 0xFF branch. -/
theorem C10_counterexample :
    get_byte 0 0 (fun _ => 0xAB) = .ok 0x00 ∧
    get_byte 0 0 (fun _ => 0xAB) ≠ .ok 0xFF := by
  refine ⟨rfl, fun h => ?_⟩
  rw [show get_byte 0 0 (fun _ => 0xAB) = (Except.ok 0x00 : Except Unit Nat) from rfl] at h
  exact absurd (Except.ok.inj h) (by decide)

/-- C10 amended: when the byte reader is called after the buffered input
    is exhausted (`inptr >= insize`), it returns the byte 0x00 (drawn
    from the injected single-zero cursor) instead of an error, so every
    bit sequence requested past end of input is drawn from 0x00 filler
    bytes. -/
theorem C10_get_byte_filler (inptr insize : Nat) (inbuf : Nat → Nat)
    (h : insize ≤ inptr) : get_byte inptr insize inbuf = .ok 0x00 := by
  unfold get_byte
  rw [if_neg (by omega)]
  rfl

/-- Witness for the amended C10 at a concrete exhausted state. -/
theorem C10_witness : get_byte 5 5 (fun _ => 0xAB) = .ok 0x00 :=
  C10_get_byte_filler 5 5 (fun _ => 0xAB) (by decide)

/-! ## Decoder bit reader (src/inflate.rs lines 224-259)

`need_bits` pulls bytes through `next_byte`/`Get_Byte`.  `Get_Byte`
(src/inflate.rs lines 225-236) returns the next buffered byte while
`inptr < insize`, and otherwise refills from an injected one-byte zero
cursor and returns the placeholder `Ok(0)`; so past the buffered input
every byte read is 0.  The buffered input is modelled as a list of bytes
and exhaustion yields 0. -/

/-- Inflate::Get_Byte / next_byte, src/inflate.rs lines 225-241, on the
    remaining buffered input. -/
def nextByte : List Nat → Nat × List Nat
  | [] => (0, [])
  | x :: xs => (x, xs)

/-- Inflate::need_bits, src/inflate.rs lines 244-253: while fewer than `n`
    bits are buffered, fetch a byte and or it into the bit buffer `b` at
    position `k`.  The fuel argument bounds the iteration count; since
    each pass adds 8 bits, `n` iterations always suffice. -/
def need_bits_go : Nat → List Nat → Nat → Nat → Nat → List Nat × Nat × Nat
  | 0, input, b, k, _ => (input, b, k)
  | fuel + 1, input, b, k, n =>
    if k < n then
      let p := nextByte input
      need_bits_go fuel p.2 (b ||| (p.1 <<< k)) (k + 8) n
    else (input, b, k)

/-- Inflate::need_bits with sufficient fuel. -/
def need_bits (input : List Nat) (b k n : Nat) : List Nat × Nat × Nat :=
  need_bits_go n input b k n

/-- Inflate::dump_bits, src/inflate.rs lines 256-259. -/
def dump_bits (b k n : Nat) : Nat × Nat :=
  (b >>> n, k - n)

/-! ## Stored blocks (src/inflate.rs lines 555-601, claim C5) -/

/-- Decoder I/O state threaded through `inflate_stored`: remaining
    buffered input, bit buffer `b`, bit count `k`, window position `w`,
    plus the ordered list of bytes stored into the window and the number
    of `flush_output` calls (instrumentation of the `slide` writes). -/
structure InflateIO where
  input : List Nat
  b : Nat
  k : Nat
  w : Nat
  writes : List Nat
  flushes : Nat
deriving DecidableEq

/-- The copy loop of Inflate::inflate_stored, src/inflate.rs lines
    582-593: for each of the `n` bytes, read 8 bits, store the low byte
    at the window position, advance, flush when the position reaches
    WSIZE, and drop the 8 bits. -/
def storedCopy : Nat → InflateIO → InflateIO
  | 0, st => st
  | n + 1, st =>
    let r := need_bits st.input st.b st.k 8
    let byte := r.2.1 &&& 0xff
    let w1 := st.w + 1
    let wf := if w1 = WSIZE then (0, st.flushes + 1) else (w1, st.flushes)
    let d := dump_bits r.2.1 r.2.2 8
    storedCopy n
      { input := r.1, b := d.1, k := d.2, w := wf.1,
        writes := st.writes ++ [byte], flushes := wf.2 }

/-- Header part of Inflate::inflate_stored, src/inflate.rs lines 566-576:
    discard `k & 7` bits to reach a byte boundary, read a 16-bit length
    `n`, then read the next 16-bit field; returns `n`, the one's
    complement of the second field (`!b & 0xffff`), and the reader state
    after both reads. -/
def stored_header (input : List Nat) (b k : Nat) :
    Nat × Nat × List Nat × Nat × Nat :=
  let d1 := dump_bits b k (k &&& 7)
  let r1 := need_bits input d1.1 d1.2 16
  let n := r1.2.1 &&& 0xffff
  let d2 := dump_bits r1.2.1 r1.2.2 16
  let r2 := need_bits r1.1 d2.1 d2.2 16
  (n, 0xffff ^^^ (r2.2.1 &&& 0xffff), r2.1, r2.2.1, r2.2.2)

/-- Inflate::inflate_stored, src/inflate.rs lines 555-601: after the
    header, return 1 (error in compressed data) when the length does not
    equal the complement of the second field; otherwise drop the second
    field's 16 bits and copy exactly `n` raw bytes to the window. -/
def inflate_stored (input : List Nat) (b k w : Nat) : Nat × InflateIO :=
  let h := stored_header input b k
  if h.1 ≠ h.2.1 then
    (1, { input := h.2.2.1, b := h.2.2.2.1, k := h.2.2.2.2, w := w,
          writes := [], flushes := 0 })
  else
    let d := dump_bits h.2.2.2.1 h.2.2.2.2 16
    (0, storedCopy h.1
      { input := h.2.2.1, b := d.1, k := d.2, w := w,
        writes := [], flushes := 0 })

/-- The copy loop of `storedCopy` appends exactly one byte to the window
    write log per remaining count. -/
theorem storedCopy_writes_length (n : Nat) :
    ∀ st : InflateIO, (storedCopy n st).writes.length = st.writes.length + n := by
  induction n with
  | zero => intro st; rfl
  | succ m ih =>
    intro st
    rw [storedCopy, ih]
    simp
    omega

/-! ## Claim C5 -/

/-- C5: on a stored block the decoder discards bits to a byte boundary
    and reads two 16-bit fields (`stored_header`); it returns the decode
    error 1 if and only if the second field is not the one's complement
    of the first, and when they match it copies exactly `n` (the first
    field) raw bytes to the window. -/
theorem C5_inflate_stored_spec (input : List Nat) (b k w : Nat) :
    ((inflate_stored input b k w).1 = 1 ↔
      (stored_header input b k).1 ≠ (stored_header input b k).2.1) ∧
    ((inflate_stored input b k w).1 = 0 ↔
      (stored_header input b k).1 = (stored_header input b k).2.1) ∧
    ((inflate_stored input b k w).1 = 0 →
      (inflate_stored input b k w).2.writes.length = (stored_header input b k).1) ∧
    ((inflate_stored input b k w).1 = 1 →
      (inflate_stored input b k w).2.writes.length = 0) := by
  by_cases hc : (stored_header input b k).1 = (stored_header input b k).2.1
  · have h0 : inflate_stored input b k w =
        (0, storedCopy (stored_header input b k).1
          { input := (stored_header input b k).2.2.1,
            b := (dump_bits (stored_header input b k).2.2.2.1
                    (stored_header input b k).2.2.2.2 16).1,
            k := (dump_bits (stored_header input b k).2.2.2.1
                    (stored_header input b k).2.2.2.2 16).2,
            w := w, writes := [], flushes := 0 }) := by
      unfold inflate_stored
      rw [if_neg (by simpa using hc)]
    rw [h0]
    refine ⟨by simpa using hc, by simpa using hc, fun _ => ?_, fun h1 => by simp at h1⟩
    rw [storedCopy_writes_length]
    simp
  · have h0 : inflate_stored input b k w =
        (1, { input := (stored_header input b k).2.2.1,
              b := (stored_header input b k).2.2.2.1,
              k := (stored_header input b k).2.2.2.2,
              w := w, writes := [], flushes := 0 }) := by
      unfold inflate_stored
      rw [if_pos (by simpa using hc)]
    rw [h0]
    exact ⟨by simpa using hc, by simpa using hc, fun h1 => by simp at h1, fun _ => rfl⟩

/-- Witness for C5: a concrete stored block of length 3 with a correct
    complement field decodes without error and writes exactly 3 bytes. -/
theorem C5_witness :
    (inflate_stored [3, 0, 252, 255, 9, 9, 9] 0 0 0).1 = 0 ∧
    (inflate_stored [3, 0, 252, 255, 9, 9, 9] 0 0 0).2.writes.length = 3 := by
  have h := C5_inflate_stored_spec [3, 0, 252, 255, 9, 9, 9] 0 0 0
  have h0 : (inflate_stored [3, 0, 252, 255, 9, 9, 9] 0 0 0).1 = 0 :=
    h.2.1.mpr (by decide)
  exact ⟨h0, by rw [h.2.2.1 h0]; decide⟩

/-! ## Window copy of a match token (src/inflate.rs lines 516-542, claim C9) -/

/-- State of the match-copy loop in Inflate::inflate_codes: remaining
    byte count `n`, source index `d` (isize in the source: `w` minus the
    match distance), window position `w`, the window `slide`, and the
    number of `flush_output` calls. -/
structure CopyState where
  n : Nat
  d : Int
  w : Nat
  slide : Nat → Nat
  flushes : Nat

/-- The per-byte branch of the copy (src/inflate.rs lines 530-534):
    `slide[w] = slide[d as usize]; w += 1; d += 1;` repeated `e` times.
    (For negative `d` the `d as usize` cast in the source produces a
    huge index and panics; the model takes `Int.toNat`.) -/
def byteCopy : Nat → CopyState → CopyState
  | 0, s => s
  | e + 1, s =>
    byteCopy e
      { s with
        slide := fun i => if i = s.w then s.slide s.d.toNat else s.slide i,
        w := s.w + 1, d := s.d + 1 }

/-- Chunk size of one copy iteration, src/inflate.rs lines 518-523:
    `e = (if d >= 0 { WSIZE - d } else { w - d }).min(n)`. -/
def chunkSize (s : CopyState) : Nat :=
  min (if 0 ≤ s.d then ((WSIZE : Int) - s.d).toNat
       else ((s.w : Int) - s.d).toNat) s.n

/-- The bulk branch, src/inflate.rs line 526-528:
    `slide.copy_within(d..d+e, w); w += e; d += e;` (the branch condition
    guarantees the regions are disjoint, so memmove equals a plain copy). -/
def bulkCopy (e : Nat) (s : CopyState) : CopyState :=
  { s with
    slide := fun i =>
      if s.w ≤ i ∧ i < s.w + e then s.slide (s.d.toNat + (i - s.w))
      else s.slide i,
    w := s.w + e, d := s.d + (e : Int) }

/-- One iteration of the `while n > 0` copy loop of Inflate::inflate_codes
    (src/inflate.rs lines 517-542): compute the chunk size; bulk copy when
    `d >= 0 && d + e <= w`, else the byte loop; then `n -= e` and a flush
    (with `w = 0`) exactly when `w == WSIZE`. -/
def copyStep (s : CopyState) : CopyState :=
  let e := chunkSize s
  let s1 :=
    if 0 ≤ s.d ∧ s.d + (e : Int) ≤ (s.w : Int) then bulkCopy e s
    else byteCopy e s
  let s2 := { s1 with n := s1.n - e }
  if s2.w = WSIZE then { s2 with w := 0, flushes := s2.flushes + 1 } else s2

/-- The `while n > 0` copy loop itself, with fuel; `none` means the fuel
    ran out with bytes still to copy. -/
def copyLoop : Nat → CopyState → Option CopyState
  | 0, s => if s.n = 0 then some s else none
  | fuel + 1, s => if s.n = 0 then some s else copyLoop fuel (copyStep s)

/-- Initial copy state for a match token of length 10 and distance 4
    decoded at window position WSIZE - 1 = 32767 (`d = w - distance`),
    a state any >32KB stream with such a match reaches. -/
def c9_start (slide : Nat → Nat) : CopyState :=
  { n := 10, d := (WSIZE : Int) - 5, w := WSIZE - 1, slide := slide, flushes := 0 }


/-- The byte-at-a-time branch advances `w` and `d` by the chunk size and
    touches neither `n` nor the flush count. -/
theorem byteCopy_fields (e : Nat) :
    ∀ s : CopyState, (byteCopy e s).n = s.n ∧ (byteCopy e s).d = s.d + e ∧
      (byteCopy e s).w = s.w + e ∧ (byteCopy e s).flushes = s.flushes := by
  induction e with
  | zero =>
    intro s
    refine ⟨rfl, by simp [byteCopy], by simp [byteCopy], rfl⟩
  | succ m ih =>
    intro s
    rw [byteCopy]
    obtain ⟨h1, h2, h3, h4⟩ := ih
      { s with
        slide := fun i => if i = s.w then s.slide s.d.toNat else s.slide i,
        w := s.w + 1, d := s.d + 1 }
    refine ⟨by simpa using h1, ?_, ?_, by simpa using h4⟩
    · rw [h2]
      simp only []
      push_cast
      ring
    · rw [h3]
      simp only []
      omega

/-- Field characterization of one copy iteration: both branches advance
    `w` and `d` by the chunk size, subtract it from `n`, and flush
    exactly when the new window position equals WSIZE. -/
theorem copyStep_fields (s : CopyState) :
    (copyStep s).n = s.n - chunkSize s ∧
    (copyStep s).d = s.d + (chunkSize s : Int) ∧
    ((copyStep s).w = if s.w + chunkSize s = WSIZE then 0 else s.w + chunkSize s) ∧
    ((copyStep s).flushes =
      if s.w + chunkSize s = WSIZE then s.flushes + 1 else s.flushes) := by
  simp only [copyStep]
  by_cases hc : 0 ≤ s.d ∧ s.d + (chunkSize s : Int) ≤ (s.w : Int)
  · rw [if_pos hc]
    by_cases hw : s.w + chunkSize s = WSIZE
    · rw [if_pos (by simpa [bulkCopy] using hw), if_pos hw, if_pos hw]
      exact ⟨by simp [bulkCopy], by simp [bulkCopy], rfl, by simp [bulkCopy]⟩
    · rw [if_neg (by simpa [bulkCopy] using hw), if_neg hw, if_neg hw]
      exact ⟨by simp [bulkCopy], by simp [bulkCopy], by simp [bulkCopy], by simp [bulkCopy]⟩
  · rw [if_neg hc]
    obtain ⟨h1, h2, h3, h4⟩ := byteCopy_fields (chunkSize s) s
    by_cases hw : s.w + chunkSize s = WSIZE
    · rw [if_pos (by simpa [h3] using hw), if_pos hw, if_pos hw]
      exact ⟨by simp [h1], by simp [h2], rfl, by simp [h4]⟩
    · rw [if_neg (by simpa [h3] using hw), if_neg hw, if_neg hw]
      exact ⟨by simp [h1], by simp [h2], by simp [h3], by simp [h4]⟩

/-- After one loop iteration on `c9_start`, the state is stuck: chunk
    size 0, no progress on `n`, and no flush, forever. -/
theorem copyStep_c9_stuck (s : CopyState) (hn : s.n = 5)
    (hd : s.d = (WSIZE : Int)) (hw : s.w = WSIZE + 4) :
    (copyStep s).n = 5 ∧ (copyStep s).d = (WSIZE : Int) ∧
    (copyStep s).w = WSIZE + 4 ∧ (copyStep s).flushes = s.flushes := by
  have h0 : chunkSize s = 0 := by simp [chunkSize, hd, hn]
  obtain ⟨f1, f2, f3, f4⟩ := copyStep_fields s
  rw [h0] at f1 f2 f3 f4
  rw [hn] at f1
  rw [hd] at f2
  rw [hw] at f3 f4
  have hne : ¬ (WSIZE + 4 + 0 = WSIZE) := by omega
  rw [if_neg hne] at f3 f4
  exact ⟨f1, by simpa using f2, f3, f4⟩

/-- In the stuck state the loop never terminates, whatever the fuel. -/
theorem copyLoop_c9_stuck (fuel : Nat) :
    ∀ s : CopyState, s.n = 5 → s.d = (WSIZE : Int) → s.w = WSIZE + 4 →
      copyLoop fuel s = none := by
  induction fuel with
  | zero =>
    intro s hn _ _
    rw [copyLoop, if_neg (by omega)]
  | succ f ih =>
    intro s hn hd hw
    rw [copyLoop, if_neg (by omega)]
    obtain ⟨g1, g2, g3, _⟩ := copyStep_c9_stuck s hn hd hw
    exact ih (copyStep s) g1 g2 g3

/-! ## Claim C9 -/

/-- C9: the claim says the decoder copies a match token byte-by-byte when
    distance < length and in bulk otherwise, flushing the window exactly
    when the position reaches 32KB, reproducing a strict forward copy.
    Counterexample: a match of length 10 and distance 4 decoded at window
    position 32767 (`c9_start`).  The first iteration computes the chunk
    as `min(WSIZE - d, n) = 5` (the source bounds the chunk only by the
    source index `d`, where upstream gzip uses `WSIZE - max(d, w)`),
    writes 5 bytes, and leaves the window position at 32772 > WSIZE with
    no flush; every later iteration has chunk size 0, so the
    `while n > 0` loop never flushes, never finishes the copy, and never
    terminates, for any fuel. -/
theorem C9_match_copy_stuck_at_window_boundary (slide : Nat → Nat) (fuel : Nat) :
    (copyStep (c9_start slide)).w = WSIZE + 4 ∧
    (copyStep (c9_start slide)).flushes = 0 ∧
    (copyStep (c9_start slide)).n = 5 ∧
    copyLoop fuel (c9_start slide) = none := by
  have hch : chunkSize (c9_start slide) = 5 := by
    simp only [chunkSize, c9_start]
    norm_num [WSIZE]
    decide
  obtain ⟨f1, f2, f3, f4⟩ := copyStep_fields (c9_start slide)
  rw [hch] at f1 f2 f3 f4
  have hd0 : (c9_start slide).d = (WSIZE : Int) - 5 := rfl
  have hw0 : (c9_start slide).w = WSIZE - 1 := rfl
  have hn0 : (c9_start slide).n = 10 := rfl
  have hf0 : (c9_start slide).flushes = 0 := rfl
  rw [hn0] at f1
  rw [hd0] at f2
  rw [hw0] at f3 f4
  rw [hf0] at f4
  have hne : ¬ (WSIZE - 1 + 5 = WSIZE) := by simp [WSIZE]
  rw [if_neg hne] at f3 f4
  have hw1 : (copyStep (c9_start slide)).w = WSIZE + 4 := by
    rw [f3]
    simp [WSIZE]
  have hd1 : (copyStep (c9_start slide)).d = (WSIZE : Int) := by
    rw [f2]
    push_cast
    ring
  refine ⟨hw1, f4, f1, ?_⟩
  cases fuel with
  | zero =>
    rw [copyLoop, if_neg (by rw [hn0]; omega)]
  | succ f =>
    rw [copyLoop, if_neg (by rw [hn0]; omega)]
    exact copyLoop_c9_stuck f (copyStep (c9_start slide)) f1 hd1 hw1

/-! ## Huffman decode-table builder (src/inflate.rs lines 262-396) -/

/-- Maximum bit length of any code, src/inflate.rs line 104. -/
def BMAX : Nat := 16

/-- Maximum number of codes in any set, src/inflate.rs line 105. -/
def N_MAX : Nat := 288

/-- Copy lengths for literal codes 257.., src/inflate.rs lines 68-72. -/
def cplens : List Nat :=
  [3, 4, 5, 6, 7, 8, 9, 10] ++ [11, 13, 15, 17, 19, 23, 27, 31] ++
  [35, 43, 51, 59, 67, 83, 99, 115] ++ [131, 163, 195, 227, 258, 0, 0]

/-- Extra bits for literal codes 257.., src/inflate.rs lines 75-78. -/
def cplext : List Nat :=
  [0, 0, 0, 0, 0, 0, 0, 0] ++ [1, 1, 1, 1, 2, 2, 2, 2] ++
  [3, 3, 3, 3, 4, 4, 4, 4] ++ [5, 5, 5, 5, 0, 99, 99]

/-- Copy offsets for distance codes 0..29, src/inflate.rs lines 81-85. -/
def cpdist : List Nat :=
  [1, 2, 3, 4, 5, 7, 9, 13] ++ [17, 25, 33, 49, 65, 97, 129, 193] ++
  [257, 385, 513, 769, 1025, 1537, 2049, 3073] ++
  [4097, 6145, 8193, 12289, 16385, 24577]

/-- Extra bits for distance codes, src/inflate.rs lines 88-92. -/
def cpdext : List Nat :=
  [0, 0, 0, 0, 1, 1, 2, 2] ++ [3, 3, 4, 4, 5, 5, 6, 6] ++
  [7, 7, 8, 8, 9, 9, 10, 10] ++ [11, 11, 12, 12, 13, 13]

/-- Order of the bit length code lengths, src/inflate.rs lines 63-65. -/
def border : List Nat :=
  [16, 17, 18, 0, 8, 7, 9, 6] ++ [10, 5, 11, 4, 12, 3, 13, 2] ++ [14, 1, 15]

mutual
/-- Decode-table entry, src/inflate.rs lines 10-14: extra bits `e`, code
    bits `b`, and value `v`. -/
inductive Huft where
  | mk : Nat → Nat → HuftValue → Huft

/-- src/inflate.rs lines 16-21: a literal/base value or a sub-table. -/
inductive HuftValue where
  | N : Nat → HuftValue
  | T : List Huft → HuftValue
end

/-- `Huft::default()`, src/inflate.rs lines 23-37. -/
def huftDefault : Huft := Huft.mk 0 0 (HuftValue.N 0)

/-- Function-as-array increment `f[i] += 1`. -/
def bump (f : Nat → Nat) (i : Nat) : Nat → Nat :=
  fun j => if j = i then f i + 1 else f j

/-- The bit-length counts of huft_build:
    `for &bit in b.iter().take(n) { c[bit] += 1 }`
    (src/inflate.rs lines 284-287). -/
def lengthCounts (b : Nat → Nat) (n : Nat) : Nat → Nat :=
  (List.range n).foldl (fun c i => bump c (b i)) (fun _ => 0)

/-- Terminal-entry construction of huft_build, src/inflate.rs lines
    358-371: `r.b = k - w`; a value below `s` is a simple code (`e` 16
    for literals < 256, 15 otherwise), else `e`/`v` come from the
    extra-bits list `e` and base list `d` at index `val - s` (an
    out-of-range index would panic in Rust; the model reads default 0);
    an exhausted value iterator leaves the default value and sets
    `e = 99`. -/
def huftEntry (s : Nat) (d e : List Nat) (bField : Nat) (val? : Option Nat) : Huft :=
  match val? with
  | some val =>
    if val < s then
      Huft.mk (if val < 256 then 16 else 15) bField (HuftValue.N val)
    else
      Huft.mk (e.getD (val - s) 0) bField (HuftValue.N (d.getD (val - s) 0))
  | none => Huft.mk 99 bField (HuftValue.N 0)

/-- The `y` adjustment of huft_build, src/inflate.rs lines 305-319:
    `y = 1 << k`; for each `j` in `k..g` subtract `c[j]` and double,
    returning `none` (the source returns 2) when `y` goes negative;
    finally subtract `c[g]` with the same check.  The final `y` is the
    deficit later added to `c[g]`. -/
def adjustCounts (c : Nat → Nat) (k g : Nat) : Option Int :=
  let step : Option Int → Nat → Option Int := fun acc j =>
    match acc with
    | none => none
    | some y =>
      let y2 := y - (c j : Int)
      if y2 < 0 then none else some (y2 * 2)
  match (List.range' k (g - k)).foldl step (some ((2 : Int) ^ k)) with
  | none => none
  | some y =>
    let y2 := y - (c g : Int)
    if y2 < 0 then none else some y2

/-- Starting offsets of huft_build:
    `j = 0; for i in 1..=BMAX { x[i] = j; j += c[i] }`
    (src/inflate.rs lines 321-326). -/
def startOffsets (c : Nat → Nat) : Nat → Nat :=
  ((List.range' 1 BMAX).foldl
    (fun (p : (Nat → Nat) × Nat) i =>
      ((fun j => if j = i then p.2 else p.1 j), p.2 + c i))
    ((fun _ => 0), 0)).1

/-- Populate the values array of huft_build:
    `for (i, &bit) in b.iter().enumerate().take(n) { if bit != 0 {
    v[x[bit]] = i; x[bit] += 1 } }` (src/inflate.rs lines 329-334);
    returns the final `(v, x)` (`v` starts as all zeros). -/
def fillValues (b : Nat → Nat) (n : Nat) (x0 : Nat → Nat) :
    (Nat → Nat) × (Nat → Nat) :=
  (List.range n).foldl
    (fun p i =>
      if b i ≠ 0 then
        ((fun j => if j = p.2 (b i) then i else p.1 j), bump p.2 (b i))
      else p)
    ((fun _ => 0), x0)

/-- State of the table-generation loop of huft_build: the stack `u` of
    allocated sub-tables (head = most recently pushed), the bit counter
    `w` (this port starts it at 0; upstream gzip starts at `-l`), the
    table level `h` (starts at -1), and the position of the `p` iterator
    over the values array. -/
structure HuftBuildState where
  u : List (List Huft)
  w : Int
  h : Int
  pIdx : Nat

/-- The allocation loop `while k > w + l` of huft_build, src/inflate.rs
    lines 346-356: bump the level, advance `w` by `l`, and push a table
    of `1 << z` default entries where `z = (g - w as u32).clamp(1, l)`
    (the u32 cast wraps, hence the `emod 2^32`).  Fuel bounds the
    iterations; `w` grows by `l >= 1` per pass and `k <= BMAX`, so
    `BMAX + 2` passes always suffice at the call sites. -/
def huftAlloc (g : Nat) (l : Int) (k : Nat) : Nat → HuftBuildState → HuftBuildState
  | 0, st => st
  | fuel + 1, st =>
    if (k : Int) > st.w + l then
      let w := st.w + l
      let z := (max 1 (min (((g : Int) - w).emod (2 ^ 32)) l)).toNat
      huftAlloc g l k fuel
        { u := List.replicate (2 ^ z) huftDefault :: st.u,
          w := w, h := st.h + 1, pIdx := st.pIdx }
    else st

/-- `for i in 0..f { subtable[base_index + i] = r.clone() }`
    (src/inflate.rs lines 373-380); out-of-range writes would panic in
    Rust and are dropped here (`List.set` ignores them). -/
def listSetMany (t : List Huft) (base f : Nat) (r : Huft) : List Huft :=
  (List.range f).foldl (fun t2 i => t2.set (base + i) r) t

/-- The `while a > 0` body of huft_build for one code length `k`,
    src/inflate.rs lines 344-383: run the allocation loop, build the
    entry `r` from the next value of `p` (`r.b = k - w`), and replicate
    it into `1 << (k - w)` slots of the top table starting at
    `x[(k - w)]`; when no table was ever allocated (`u` empty) the entry
    is dropped, exactly as the source's `if let Some(subtable) =
    u.last_mut()` does. -/
def huftCodes (v x : Nat → Nat) (s : Nat) (d e : List Nat) (g : Nat) (l : Int)
    (k : Nat) : Nat → HuftBuildState → HuftBuildState
  | 0, st => st
  | a + 1, st =>
    let st1 := huftAlloc g l k (BMAX + 2) st
    let val? := if st1.pIdx < N_MAX then some (v st1.pIdx) else none
    let r := huftEntry s d e (((k : Int) - st1.w).toNat) val?
    let f := 2 ^ (((k : Int) - st1.w).toNat)
    let baseIndex := x (((k : Int) - st1.w).toNat)
    let u2 :=
      match st1.u with
      | [] => ([] : List (List Huft))
      | top :: rest => listSetMany top baseIndex f r :: rest
    huftCodes v x s d e g l k a
      { u := u2, w := st1.w, h := st1.h, pIdx := st1.pIdx + 1 }

/-- Inflate::huft_build, src/inflate.rs lines 262-396.  Arguments: code
    lengths `b` (a function; the first `n` entries matter), the number of
    simple-valued codes `s`, base values `d` and extra bits `e` for the
    non-simple codes, the previous contents `t0` of the output table
    pointer (kept when the generation loop allocated nothing, as in the
    source where `*t` is only assigned under `if let Some(subtable) =
    u.pop()`), and the requested lookup bits `m`.  Returns
    `(return code, table, m)`: 0 with a single invalid-if-used dummy
    entry and `m = 1` when every length is zero; 2 with `m = l` when the
    `y` check goes negative; otherwise the built table with return code
    `(y != 0 && g != 1) as u32`. -/
def huft_build (b : Nat → Nat) (n s : Nat) (d e : List Nat) (t0 : Option Huft)
    (m : Int) : Nat × Option Huft × Int :=
  let c := lengthCounts b n
  if c 0 = n then (0, some (Huft.mk 99 1 (HuftValue.T [])), 1)
  else
    let k := (((List.range (BMAX + 1)).filter (fun j => c j ≠ 0)).head?).getD 0
    let g := (((List.range' 1 BMAX).reverse.filter (fun j => c j ≠ 0)).head?).getD 0
    let l := max (k : Int) (min m (g : Int))
    match adjustCounts c k g with
    | none => (2, t0, l)
    | some y =>
      let cAdj := fun j => if j = g then c g + y.toNat else c j
      let x0 := startOffsets cAdj
      let vx := fillValues b n x0
      let x1 := fun j => if j = 0 then 0 else vx.2 j
      let fin := (List.range' k (g + 1 - k)).foldl
        (fun st k2 => huftCodes vx.1 x1 s d e g l k2 (cAdj k2) st)
        { u := [], w := 0, h := -1, pIdx := 0 }
      let t :=
        match fin.u with
        | [] => t0
        | top :: _ => some (Huft.mk 0 0 (HuftValue.T top))
      (if y ≠ 0 ∧ g ≠ 1 then 1 else 0, t, l)

/-- Unfolding of `lengthCounts` at a successor. -/
theorem lengthCounts_succ (b : Nat → Nat) (n : Nat) :
    lengthCounts b (n + 1) = bump (lengthCounts b n) (b n) := by
  unfold lengthCounts
  rw [List.range_succ, List.foldl_append]
  rfl

/-- When the first `n` code lengths are all zero, the count of zero
    lengths is `n`. -/
theorem lengthCounts_all_zero (b : Nat → Nat) (n : Nat)
    (h : ∀ i, i < n → b i = 0) : lengthCounts b n 0 = n := by
  induction n with
  | zero => rfl
  | succ m ih =>
    rw [lengthCounts_succ, h m (by omega)]
    unfold bump
    simp [ih (fun i hi => h i (by omega))]

/-! ## Claim C8 -/

/-- C8: huft_build applied to an input in which every code length is zero
    succeeds (returns 0), sets the returned lookup width `m` to 1, and
    produces a single dummy entry flagged invalid-if-used (`e = 99`,
    `b = 1`), for any `n`, alphabet split and base/extra tables
    (src/inflate.rs lines 289-297). -/
theorem C8_huft_build_all_zero (b : Nat → Nat) (n s : Nat) (d e : List Nat)
    (t0 : Option Huft) (m : Int) (h : ∀ i, i < n → b i = 0) :
    huft_build b n s d e t0 m = (0, some (Huft.mk 99 1 (HuftValue.T [])), 1) := by
  simp only [huft_build]
  rw [if_pos (lengthCounts_all_zero b n h)]

/-- Witness for C8: the all-zero 19-length input of the bit-length-table
    call site (src/inflate.rs line 704, lookup bits 7). -/
theorem C8_witness :
    huft_build (fun _ => 0) 19 19 [] [] none 7 =
      (0, some (Huft.mk 99 1 (HuftValue.T [])), 1) :=
  C8_huft_build_all_zero (fun _ => 0) 19 19 [] [] none 7 (fun _ _ => rfl)

/-! ## Claim C3 -/

/-- Scaled Kraft sum over the symbols with a nonzero code length:
    `sum of 2^(cap - len i)` for `i < n` with `len i != 0`.  A code is
    complete exactly when this equals `2^cap` and over-subscribed when it
    exceeds it. -/
def kraftScaled (len : Nat → Nat) (n cap : Nat) : Nat :=
  ((List.range n).filter (fun i => len i ≠ 0)).foldl
    (fun acc i => acc + 2 ^ (cap - len i)) 0

/-- C3 counterexample: the claim says huft_build returns success on every
    complete code, and an error only on over-subscribed codes.  The code
    assigning length 1 to symbols 0 and 1 and length 0 to the remaining
    17 symbols (a legal, complete bit-length table, exactly the shape the
    dynamic-block call site at src/inflate.rs line 704 produces) has
    scaled Kraft sum `2^BMAX`, yet huft_build returns 2 — the
    over-subscribed error — with no table: the minimum-length search
    `c.iter().position(|&x| x != 0)` (line 300) starts at index 0 and so
    finds the count of the 17 unused symbols, where upstream gzip starts
    at length 1; the `y` check then goes negative immediately.  Nor does
    a complete code without unused symbols fare better: on the two-symbol
    complete code (`n = 2`) huft_build returns success (0) but leaves the
    output table empty (`none`), because the allocation guard
    `while k > w + l` starts `w` at 0 where upstream gzip starts it at
    `-l`, so the root table is never allocated and no bit pattern
    resolves to anything. -/
theorem C3_huft_build_rejects_complete_code :
    kraftScaled (fun i => if i < 2 then 1 else 0) 19 BMAX = 2 ^ BMAX ∧
    huft_build (fun i => if i < 2 then 1 else 0) 19 19 [] [] none 7 =
      (2, none, 1) ∧
    kraftScaled (fun i => if i < 2 then 1 else 0) 2 BMAX = 2 ^ BMAX ∧
    huft_build (fun i => if i < 2 then 1 else 0) 2 2 [] [] none 7 =
      (0, none, 1) := by
  refine ⟨by decide, rfl, by decide, rfl⟩

/-! ## Claim C2 -/

/-- The (base, extra-bits) tables Inflate::inflate_fixed passes to
    huft_build for the literal/length table: `(cplens, cplext)`
    (src/inflate.rs line 626). -/
def inflate_fixed_literal_args : List Nat × List Nat := (cplens, cplext)

/-- The (base, extra-bits) tables Inflate::inflate_dynamic passes to
    huft_build for the literal/length table: `(cpdist, cpdext)`
    (src/inflate.rs line 807). -/
def inflate_dynamic_literal_args : List Nat × List Nat := (cpdist, cpdext)

/-- C2 counterexample: the claim says a length symbol > 256 resolves to
    the base/extra-bits of the 29-entry length table in every block type,
    so fixed and dynamic blocks decode the same length code identically.
    In a fixed block the table entry for length symbol 265 is built from
    `(cplens, cplext)` and carries base 11 with 1 extra bit; in a dynamic
    block `inflate_dynamic` passes `(cpdist, cpdext)` — the distance
    tables — for the literal/length tree, so the same symbol resolves to
    base 17 with 3 extra bits.  (`bField = 1` stands for any `k - w`
    value; the entry's `e`/`v` fields do not depend on it.) -/
theorem C2_dynamic_block_misuses_distance_tables :
    huftEntry 257 inflate_fixed_literal_args.1 inflate_fixed_literal_args.2
        1 (some 265) = Huft.mk 1 1 (HuftValue.N 11) ∧
    huftEntry 257 inflate_dynamic_literal_args.1 inflate_dynamic_literal_args.2
        1 (some 265) = Huft.mk 3 1 (HuftValue.N 17) ∧
    inflate_dynamic_literal_args ≠ inflate_fixed_literal_args := by
  refine ⟨rfl, rfl, ?_⟩
  intro h
  exact absurd (congrArg Prod.fst h) (by decide)

/-! ## Encoder tree builder (src/trees.rs, claims C6) -/

/-- src/trees.rs line 7. -/
def MAX_BITS : Nat := 15

/-- src/trees.rs line 8. -/
def MAX_BL_BITS : Nat := 7

/-- src/trees.rs line 9. -/
def LENGTH_CODES : Nat := 29

/-- src/trees.rs line 10. -/
def LITERALS : Nat := 256

/-- src/trees.rs line 13. -/
def L_CODES : Nat := LITERALS + 1 + LENGTH_CODES

/-- src/trees.rs line 14. -/
def D_CODES : Nat := 30

/-- src/trees.rs line 15. -/
def BL_CODES : Nat := 19

/-- src/trees.rs line 16. -/
def HEAP_SIZE : Nat := 2 * L_CODES + 1

/-- src/trees.rs line 21. -/
def SMALLEST : Nat := 1

/-- Mutable state threaded through Trees::build_tree and Trees::gen_bitlen
    (src/trees.rs): the per-symbol `freq`/`len`/`dad`/`code` fields of the
    CtData array, the `heap` array with `heap_len`/`heap_max`, the `depth`
    array and the `bl_count` array (i32, hence Int).  The output-size
    accounting `opt_len`/`static_len` is not modelled: it feeds only the
    stored/static/dynamic block choice, not the produced bit lengths. -/
structure TreeState where
  freqA : Nat → Nat
  lenA : Nat → Nat
  dadA : Nat → Nat
  codeA : Nat → Nat
  heap : Nat → Nat
  depth : Nat → Nat
  heapLen : Nat
  heapMax : Nat
  blCount : Nat → Int

/-- Trees::smaller, src/trees.rs lines 1033-1036: compare nodes by
    frequency, breaking ties by depth. -/
def smaller (st : TreeState) (n m : Nat) : Bool :=
  decide (st.freqA n < st.freqA m ∨
    (st.freqA n = st.freqA m ∧ st.depth n ≤ st.depth m))

/-- Trees::pq_down_heap, src/trees.rs lines 999-1029: `v = heap[k]` is
    read once; the loop walks to child `j = 2k + 1` (zero-based children
    although the heap is filled from index 1), picks the smaller child,
    stops when `v` is smaller, else moves the child up and descends; `v`
    lands at the final `k`.  Fuel bounds the loop; `k` at least doubles
    per pass, so HEAP_SIZE passes always suffice. -/
def pq_down_heap_go (v : Nat) : Nat → Nat → TreeState → TreeState
  | 0, k, st => { st with heap := fun i => if i = k then v else st.heap i }
  | fuel + 1, k, st =>
    let j := 2 * k + 1
    if j ≥ st.heapLen then
      { st with heap := fun i => if i = k then v else st.heap i }
    else
      let j := if j + 1 < st.heapLen ∧ smaller st (st.heap (j + 1)) (st.heap j)
               then j + 1 else j
      if smaller st v (st.heap j) then
        { st with heap := fun i => if i = k then v else st.heap i }
      else
        pq_down_heap_go v fuel j
          { st with heap := fun i => if i = k then st.heap j else st.heap i }

/-- Trees::pq_down_heap entry point. -/
def pq_down_heap (st : TreeState) (k : Nat) : TreeState :=
  pq_down_heap_go (st.heap k) HEAP_SIZE k st

/-- Trees::pq_remove, src/trees.rs lines 852-864: take `heap[SMALLEST]`,
    move `heap[heap_len - 1]` to the root, shrink the heap, sift down. -/
def pq_remove (st : TreeState) : Nat × TreeState :=
  let top := st.heap SMALLEST
  let st1 :=
    { st with
      heap := fun i => if i = SMALLEST then st.heap (st.heapLen - 1) else st.heap i,
      heapLen := st.heapLen - 1 }
  (top, pq_down_heap st1 SMALLEST)

/-- Initial heap of Trees::build_tree, src/trees.rs lines 777-786: each
    symbol with nonzero frequency is appended to the 1-based heap
    (`heap_len += 1; heap[heap_len] = n`), becomes max_code, and gets
    depth 0; zero-frequency symbols get len 0.  Returns the state and
    max_code (Int, -1 when nothing is used). -/
def buildTreeInit (st0 : TreeState) (elems : Nat) : TreeState × Int :=
  (List.range elems).foldl
    (fun (p : TreeState × Int) n =>
      let st := p.1
      if st.freqA n ≠ 0 then
        ({ st with heapLen := st.heapLen + 1,
                   heap := fun i => if i = st.heapLen + 1 then n else st.heap i,
                   depth := fun i => if i = n then 0 else st.depth i }, (n : Int))
      else
        ({ st with lenA := fun i => if i = n then 0 else st.lenA i }, p.2))
    (st0, -1)

/-- The `while heap_len < 2` loop of build_tree, src/trees.rs lines
    792-804: force at least two codes of nonzero frequency (new node
    `max_code + 1` when that is < 2, else 0) with freq 1 and depth 0.
    (The `opt_len`/`static_len` adjustments are size accounting only.)
    The loop runs at most twice, the fuel passed at the call site. -/
def forceTwoCodes : Nat → TreeState × Int → TreeState × Int
  | 0, p => p
  | fuel + 1, p =>
    let st := p.1
    if st.heapLen < 2 then
      let maxCode := p.2 + 1
      let newNode := (if maxCode < 2 then maxCode else 0).toNat
      forceTwoCodes fuel
        ({ st with heapLen := st.heapLen + 1,
                   heap := fun i => if i = st.heapLen + 1 then newNode else st.heap i,
                   freqA := fun i => if i = newNode then 1 else st.freqA i,
                   depth := fun i => if i = newNode then 0 else st.depth i },
         maxCode)
    else p

/-- src/trees.rs lines 809-811: establish sub-heaps of increasing length
    by sifting down positions `heap_len / 2` down to 1. -/
def establishSubHeaps (st : TreeState) : TreeState :=
  ((List.range' 1 (st.heapLen / 2)).reverse).foldl pq_down_heap st

/-- The construction loop of build_tree, src/trees.rs lines 814-838:
    remove the least-frequent node `n`, read `m` from `heap[SMALLEST]`
    after the removal, park both at `heap[--heap_max]`, make `node` their
    parent (freq sum, depth max + 1, dad links), push it at the root and
    sift down; repeat until fewer than two heap entries remain.
    `heap_len` shrinks by one per pass, so it bounds the iterations. -/
def buildTreeLoop : Nat → Nat → TreeState → TreeState
  | 0, _, st => st
  | fuel + 1, node, st =>
    let r := pq_remove st
    let n := r.1
    let st1 := r.2
    let m := st1.heap SMALLEST
    let st2 := { st1 with
      heapMax := st1.heapMax - 1,
      heap := fun i => if i = st1.heapMax - 1 then n else st1.heap i }
    let st3 := { st2 with
      heapMax := st2.heapMax - 1,
      heap := fun i => if i = st2.heapMax - 1 then m else st2.heap i }
    let freqSum := st3.freqA n + st3.freqA m
    let st4 := { st3 with
      freqA := fun i => if i = node then freqSum else st3.freqA i,
      depth := fun i => if i = node then max (st3.depth n) (st3.depth m) + 1
               else st3.depth i }
    let st5 := { st4 with
      dadA := fun i => if i = n ∨ i = m then node else st4.dadA i }
    let st6 := { st5 with heap := fun i => if i = SMALLEST then node else st5.heap i }
    let st7 := pq_down_heap st6 SMALLEST
    if st7.heapLen < 2 then st7
    else buildTreeLoop fuel (node + 1) st7

/-- src/trees.rs lines 840-841: park the last root at `heap[--heap_max]`. -/
def buildTreeFinish (st : TreeState) : TreeState :=
  { st with
    heapMax := st.heapMax - 1,
    heap := fun i => if i = st.heapMax - 1 then st.heap SMALLEST else st.heap i }

/-- First pass of Trees::gen_bitlen, src/trees.rs lines 885-921: clear
    bl_count, zero the root's len (`tree[heap[heap_max]].len = 0`), then
    for `h` in `(heap_max + 1)..heap_len` — the loop bound as written in
    this source; upstream gzip iterates up to HEAP_SIZE — set each node's
    len to its parent's len + 1, clamping at `max_length` and counting
    clamps in `overflow`, and tally bl_count for the leaves
    (`n <= max_code`).  The `xbits`/`opt_len`/`static_len` part is size
    accounting and is omitted.  Returns the state and the overflow. -/
def genBitlenPass (st0 : TreeState) (maxCode : Int) (maxLength : Nat) :
    TreeState × Nat :=
  let st1 := { st0 with blCount := fun _ => 0 }
  let st2 :=
    { st1 with lenA := fun i => if i = st1.heap st1.heapMax then 0 else st1.lenA i }
  (List.range' (st2.heapMax + 1) (st2.heapLen - (st2.heapMax + 1))).foldl
    (fun (p : TreeState × Nat) h =>
      let st := p.1
      let n := st.heap h
      let bits0 := st.lenA (st.dadA n) + 1
      let clamped := decide (bits0 > maxLength)
      let bits := if bits0 > maxLength then maxLength else bits0
      let ov := if clamped then p.2 + 1 else p.2
      let stL := { st with lenA := fun i => if i = n then bits else st.lenA i }
      if (n : Int) > maxCode then (stL, ov)
      else
        ({ stL with
           blCount := fun i => if i = bits then stL.blCount bits + 1 else stL.blCount i },
         ov))
    (st2, 0)

/-- The inner search of Trees::adjust_bit_lengths, src/trees.rs lines
    943-946: walk down from `max_length - 1` to the first bit length with
    a nonzero count.  Fuel bounds the walk. -/
def adjustFindBits (st : TreeState) : Nat → Nat → Nat
  | 0, bits => bits
  | fuel + 1, bits =>
    if st.blCount bits = 0 then adjustFindBits st fuel (bits - 1) else bits

/-- Trees::adjust_bit_lengths, src/trees.rs lines 935-963: repeatedly
    move one code from the first increasable bit length to one longer
    (`bl_count[bits] -= 1; bl_count[bits+1] += 2;
    bl_count[max_length] -= 1`), two overflow units per pass, until the
    overflow is gone.  Fuel bounds the passes (`overflow` suffices). -/
def adjust_bit_lengths (maxLength : Nat) : Nat → Int → TreeState → TreeState
  | 0, _, st => st
  | fuel + 1, overflow, st =>
    let bits := adjustFindBits st (maxLength + 1) (maxLength - 1)
    let bl1 := fun i => if i = bits then st.blCount bits - 1 else st.blCount i
    let bl2 := fun i => if i = bits + 1 then bl1 (bits + 1) + 2 else bl1 i
    let bl3 := fun i => if i = maxLength then bl2 maxLength - 1 else bl2 i
    let st1 := { st with blCount := bl3 }
    let overflow2 := overflow - 2
    if overflow2 ≤ 0 then st1
    else adjust_bit_lengths maxLength fuel overflow2 st1

/-- Inner loop of Trees::recompute_bit_lengths, src/trees.rs lines
    971-992: `bl_count[bits]` times, step `h` down, skip non-leaves, and
    set the leaf's len to `bits` when it differs. -/
def recomputeInner (maxCode : Int) (bits : Nat) : Nat → Nat → TreeState → Nat × TreeState
  | 0, h, st => (h, st)
  | cnt + 1, h, st =>
    let h1 := h - 1
    let m := st.heap h1
    if (m : Int) > maxCode then recomputeInner maxCode bits cnt h1 st
    else
      let st1 :=
        if st.lenA m ≠ bits then
          { st with lenA := fun i => if i = m then bits else st.lenA i }
        else st
      recomputeInner maxCode bits cnt h1 st1

/-- Trees::recompute_bit_lengths, src/trees.rs lines 966-994: starting
    from `h = heap_len`, for bits from `max_length` down to 1 assign the
    bit length to `bl_count[bits]` leaves in increasing frequency order. -/
def recompute_bit_lengths (st0 : TreeState) (maxCode : Int) (maxLength : Nat) :
    TreeState :=
  (((List.range' 1 maxLength).reverse).foldl
    (fun (p : Nat × TreeState) bits =>
      recomputeInner maxCode bits (p.2.blCount bits).toNat p.1 p.2)
    (st0.heapLen, st0)).2

/-- Trees::gen_bitlen, src/trees.rs lines 874-932: run the first pass;
    when nothing was clamped, stop; otherwise adjust the counts and
    recompute every leaf's length. -/
def gen_bitlen (st0 : TreeState) (maxCode : Int) (maxLength : Nat) : TreeState :=
  let p := genBitlenPass st0 maxCode maxLength
  if p.2 = 0 then p.1
  else
    recompute_bit_lengths
      (adjust_bit_lengths maxLength p.2 (p.2 : Int) p.1) maxCode maxLength

/-- Trees::bi_reverse, src/trees.rs lines 320-328. -/
def bi_reverse (code len : Nat) : Nat :=
  ((List.range len).foldl
    (fun (p : Nat × Nat) _ => ((p.1 <<< 1) ||| (p.2 &&& 1), p.2 >>> 1))
    (0, code)).1

/-- Trees::gen_codes, src/trees.rs lines 300-318: build `next_code` from
    bl_count (`code = (code + bl_count[bits - 1]) << 1`), then give every
    node in `0..max_code` (exclusive, as the source's range reads) with a
    nonzero len the next bit-reversed code of its length. -/
def gen_codes (st0 : TreeState) (maxCode : Int) : TreeState :=
  let nc := (List.range' 1 MAX_BITS).foldl
    (fun (p : (Nat → Int) × Int) bits =>
      let code := (p.2 + st0.blCount (bits - 1)) * 2
      ((fun j => if j = bits then code else p.1 j), code))
    ((fun _ => 0), 0)
  let fin := (List.range maxCode.toNat).foldl
    (fun (p : (Nat → Nat) × (Nat → Int)) n =>
      let len := st0.lenA n
      if len ≠ 0 then
        ((fun i => if i = n then bi_reverse (p.2 len).toNat len else p.1 i),
         (fun j => if j = len then p.2 len + 1 else p.2 j))
      else p)
    (st0.codeA, nc.1)
  { st0 with codeA := fin.1 }

/-- Trees::build_tree, src/trees.rs lines 763-848: reset the heap, insert
    the used symbols, force two codes, establish sub-heaps, run the
    construction loop (fuel `heap_len`: it shrinks by one per pass),
    park the last root, then gen_bitlen and gen_codes.  `node` starts at
    `elems`.  Returns the final state and `desc.max_code`. -/
def build_tree (st0 : TreeState) (elems maxLength : Nat) : TreeState × Int :=
  let stA := { st0 with heapLen := 0, heapMax := HEAP_SIZE }
  let p1 := buildTreeInit stA elems
  let p2 := forceTwoCodes 2 p1
  let maxCode := p2.2
  let st3 := establishSubHeaps p2.1
  let st4 := buildTreeLoop st3.heapLen elems st3
  let st5 := buildTreeFinish st4
  let st6 := gen_bitlen st5 maxCode maxLength
  (gen_codes st6 maxCode, maxCode)

/-! ## Claim C6 -/

/-- Scaled Kraft sum over the used symbols (nonzero frequency):
    `sum of 2^(cap - len i)` for `i < n` with `freq i != 0`; the Kraft
    inequality `sum 2^-len <= 1` holds exactly when this is at most
    `2^cap`. -/
def kraftScaledUsed (freq len : Nat → Nat) (n cap : Nat) : Nat :=
  ((List.range n).filter (fun i => freq i ≠ 0)).foldl
    (fun acc i => acc + 2 ^ (cap - len i)) 0

/-- Distance-tree-shaped frequency assignment with exactly two used
    symbols (frequency 1 each), the smallest block content: one literal
    plus the mandatory END_BLOCK symbol gives such a shape. -/
def c6_freq : Nat → Nat := fun i => if i < 2 then 1 else 0

/-- Fresh tree arrays as `Trees::new` creates them (all CtData fields 0). -/
def c6_state : TreeState :=
  { freqA := c6_freq, lenA := fun _ => 0, dadA := fun _ => 0,
    codeA := fun _ => 0, heap := fun _ => 0, depth := fun _ => 0,
    heapLen := 0, heapMax := 0, blCount := fun _ => 0 }

/-- C6: the claim says the bit lengths produced by the encoder's tree
    builder always satisfy the Kraft inequality and the length cap.
    Counterexample: any block with exactly two used symbols (the minimum
    the builder itself forces).  After the construction loop
    `heap_len = 1`, so the length-assignment loop of gen_bitlen —
    `for h in (heap_max + 1)..heap_len`, an empty range; upstream gzip
    runs `h` up to HEAP_SIZE — assigns no lengths at all: both used
    symbols keep bit length 0, and the Kraft sum over used symbols is
    `2^-0 + 2^-0 = 2 > 1` (scaled: `2^16 > 2^15`), so no prefix code
    exists.  (The cap half holds vacuously: 0 <= 15.) -/
theorem C6_gen_bitlen_assigns_no_lengths :
    (build_tree c6_state 30 MAX_BITS).1.lenA 0 = 0 ∧
    (build_tree c6_state 30 MAX_BITS).1.lenA 1 = 0 ∧
    (build_tree c6_state 30 MAX_BITS).1.freqA 0 = 1 ∧
    (build_tree c6_state 30 MAX_BITS).1.freqA 1 = 1 ∧
    kraftScaledUsed (build_tree c6_state 30 MAX_BITS).1.freqA
      (build_tree c6_state 30 MAX_BITS).1.lenA 30 MAX_BITS = 2 ^ (MAX_BITS + 1) ∧
    2 ^ MAX_BITS < 2 ^ (MAX_BITS + 1) := by
  set_option maxRecDepth 20000 in
  refine ⟨rfl, rfl, rfl, rfl, rfl, by decide⟩

/-! ## LZ77 longest match (src/deflate.rs lines 318-409, claims C4) -/

/-- The match-extension loop of Deflate::longest_match, src/deflate.rs
    lines 363-368: starting from `len = 2`,
    `while len < MAX_MATCH && window[scan + len] == window[match + len]`
    increment `len`.  Structured with fuel; MAX_MATCH passes suffice. -/
def matchExtendGo (window : Nat → Nat) (scan mi : Nat) : Nat → Nat → Nat
  | 0, len => len
  | fuel + 1, len =>
    if len < MAX_MATCH ∧ window (scan + len) = window (mi + len) then
      matchExtendGo window scan mi fuel (len + 1)
    else len

/-- The match-extension loop with its sufficient fuel. -/
def matchExtend (window : Nat → Nat) (scan mi : Nat) : Nat :=
  matchExtendGo window scan mi MAX_MATCH 2

/-- The chain-walking loop of Deflate::longest_match, src/deflate.rs
    lines 347-383, with
    `while cur_match > limit && chain_length != 0` and the decrement
    folded into the structural recursion on `chain_length`.  Arguments
    past the fixed ones: chain_length, cur_match, best_len, match_start,
    scan_end1, scan_end.  Returns `(best_len, match_start)`.  Each pass:
    the four-byte cheap reject, full extension from 2, the
    `len > best_len` update with `break` at `len >= nice_match`, the
    (dead: `scan >= 1`) scan_end refresh guarded by
    `len >= scan + best_len`, then `cur_match = prev[cur_match & WMASK]`
    (`& WMASK` = `% WSIZE`). -/
def lmGo (window prev : Nat → Nat) (strstart limit niceMatch : Nat) :
    Nat → Nat → Nat → Nat → Nat → Nat → Nat × Nat
  | 0, _, bestLen, matchStart, _, _ => (bestLen, matchStart)
  | chainLength + 1, curMatch, bestLen, matchStart, scanEnd1, scanEnd =>
    if curMatch ≤ limit then (bestLen, matchStart)
    else
      let mi := curMatch
      if window (mi + bestLen) ≠ scanEnd ∨
         window (mi + bestLen - 1) ≠ scanEnd1 ∨
         window mi ≠ window strstart ∨
         window (mi + 1) ≠ window (strstart + 1) then
        lmGo window prev strstart limit niceMatch chainLength
          (prev (mi % WSIZE)) bestLen matchStart scanEnd1 scanEnd
      else
        let len := matchExtend window strstart mi
        if len > bestLen then
          if len ≥ niceMatch then (len, mi)
          else
            let scanEnd1A :=
              if len ≥ strstart + len then window (strstart + len - 1) else scanEnd1
            let scanEndA :=
              if len ≥ strstart + len then window (strstart + len) else scanEnd
            lmGo window prev strstart limit niceMatch chainLength
              (prev (mi % WSIZE)) len mi scanEnd1A scanEndA
        else
          lmGo window prev strstart limit niceMatch chainLength
            (prev (mi % WSIZE)) bestLen matchStart scanEnd1 scanEnd

/-- Deflate::longest_match, src/deflate.rs lines 318-386: quarter the
    chain depth when `prev_length >= good_match`, set
    `limit = strstart - MAX_DIST` (0 when strstart is smaller),
    `best_len = prev_length`, seed scan_end1/scan_end from the window,
    and walk the chain.  Returns `(best_len, match_start)` (the source
    returns best_len and stores match_start in a field). -/
def longest_match (window prev : Nat → Nat)
    (strstart prevLength goodMatch niceMatch maxChainLength matchStart0
     curMatch : Nat) : Nat × Nat :=
  let chainLength := if prevLength ≥ goodMatch then maxChainLength / 4
                     else maxChainLength
  let limit := if strstart > MAX_DIST then strstart - MAX_DIST else 0
  let bestLen := prevLength
  lmGo window prev strstart limit niceMatch chainLength curMatch bestLen
    matchStart0 (window (strstart + bestLen - 1)) (window (strstart + bestLen))

/-- Deflate::check_match, src/deflate.rs lines 388-409: the emission-time
    assertion that `window[match..match+length] == window[start..start+length]`
    (`gzip_error "invalid match"` otherwise, modelled as `false`). -/
def check_match (window : Nat → Nat) (start matchPos length : Nat) : Bool :=
  (List.range length).all (fun j => window (matchPos + j) == window (start + j))

/-- The token decision of one deflate_fast iteration, src/deflate.rs
    lines 219-272, after `insert_string` returned `hash_head`: when
    `hash_head != NIL && strstart > hash_head && strstart - hash_head <=
    MAX_DIST && strstart <= WINDOW_SIZE - MIN_LOOKAHEAD`, run
    longest_match (with `prev_length = MIN_MATCH - 1` as set at line 218,
    never modified in deflate_fast) and clamp the result to the
    lookahead; a match token `(distance, length)` with
    `distance = strstart - match_start` is emitted via
    `ct_tally(strstart - match_start, length - MIN_MATCH)` exactly when
    `match_length >= MIN_MATCH`, else the literal is tallied (`none`).
    `matchLength0`/`matchStart0` are the leftover values from the
    previous iteration; the source comment guarantees
    `match_length < MIN_MATCH` at this point. -/
def deflate_fast_token (window prev : Nat → Nat)
    (strstart lookahead hashHead matchLength0 matchStart0
     goodMatch niceMatch maxChainLength : Nat) : Option (Nat × Nat) :=
  let ml :=
    if hashHead ≠ 0 ∧ strstart > hashHead ∧ strstart - hashHead ≤ MAX_DIST ∧
       strstart ≤ WINDOW_SIZE - MIN_LOOKAHEAD then
      let r := longest_match window prev strstart (MIN_MATCH - 1) goodMatch
        niceMatch maxChainLength matchStart0 hashHead
      (if r.1 > lookahead then lookahead else r.1, r.2)
    else (matchLength0, matchStart0)
  if ml.1 ≥ MIN_MATCH then some (strstart - ml.2, ml.1) else none

/-- Invariant of the match-extension loop: the result only grows from the
    start length, stays at most MAX_MATCH, and every extended byte
    matched. -/
theorem matchExtendGo_spec (window : Nat → Nat) (scan mi : Nat) (fuel : Nat) :
    ∀ len, len ≤ MAX_MATCH →
      len ≤ matchExtendGo window scan mi fuel len ∧
      matchExtendGo window scan mi fuel len ≤ MAX_MATCH ∧
      ∀ j, len ≤ j → j < matchExtendGo window scan mi fuel len →
        window (scan + j) = window (mi + j) := by
  induction fuel with
  | zero =>
    intro len hlen
    exact ⟨le_refl _, hlen, fun j hj1 hj2 => by rw [matchExtendGo] at hj2; omega⟩
  | succ f ih =>
    intro len hlen
    rw [matchExtendGo]
    by_cases hc : len < MAX_MATCH ∧ window (scan + len) = window (mi + len)
    · rw [if_pos hc]
      obtain ⟨h1, h2, h3⟩ := ih (len + 1) (by omega)
      refine ⟨by omega, h2, fun j hj1 hj2 => ?_⟩
      rcases Nat.eq_or_lt_of_le hj1 with he | hlt
      · rw [← he]
        exact hc.2
      · exact h3 j (by omega) hj2
    · rw [if_neg hc]
      exact ⟨le_refl _, hlen, fun j hj1 hj2 => by omega⟩

/-- A sound improved result of the chain walk: strictly longer than the
    starting best length, at most MAX_MATCH, referencing a position
    strictly between `limit` and the cursor, and byte-for-byte equal to
    the bytes at the cursor. -/
def lmSound (window : Nat → Nat) (strstart limit bestLen0 : Nat)
    (r : Nat × Nat) : Prop :=
  bestLen0 < r.1 ∧ r.1 ≤ MAX_MATCH ∧ limit < r.2 ∧ r.2 < strstart ∧
  ∀ j, j < r.1 → window (r.2 + j) = window (strstart + j)

/-- Invariant of the chain walk: either the loop returns the starting
    `(best_len, match_start)` untouched, or the result is sound. -/
theorem lmGo_spec (window prev : Nat → Nat) (strstart limit niceMatch : Nat)
    (hprev : ∀ i, prev i < strstart) :
    ∀ (chainLength curMatch bestLen matchStart scanEnd1 scanEnd : Nat),
      curMatch < strstart →
      lmGo window prev strstart limit niceMatch chainLength curMatch bestLen
          matchStart scanEnd1 scanEnd = (bestLen, matchStart) ∨
      lmSound window strstart limit bestLen
        (lmGo window prev strstart limit niceMatch chainLength curMatch bestLen
          matchStart scanEnd1 scanEnd) := by
  intro chainLength
  induction chainLength with
  | zero =>
    intro curMatch bestLen matchStart scanEnd1 scanEnd _
    left
    rfl
  | succ f ih =>
    intro curMatch bestLen matchStart scanEnd1 scanEnd hcur
    simp only [lmGo]
    by_cases hlim : curMatch ≤ limit
    · rw [if_pos hlim]
      left
      rfl
    · rw [if_neg hlim]
      by_cases hrej : window (curMatch + bestLen) ≠ scanEnd ∨
          window (curMatch + bestLen - 1) ≠ scanEnd1 ∨
          window curMatch ≠ window strstart ∨
          window (curMatch + 1) ≠ window (strstart + 1)
      · rw [if_pos hrej]
        exact ih (prev (curMatch % WSIZE)) bestLen matchStart scanEnd1 scanEnd
          (hprev (curMatch % WSIZE))
      · rw [if_neg hrej]
        push_neg at hrej
        obtain ⟨hq1, hq2, hq3, hq4⟩ := hrej
        obtain ⟨hm1, hm2, hm3⟩ :=
          matchExtendGo_spec window strstart curMatch MAX_MATCH 2
            (by norm_num [MAX_MATCH])
        have heq : ∀ j, j < matchExtend window strstart curMatch →
            window (curMatch + j) = window (strstart + j) := by
          intro j hj
          match j with
          | 0 => simpa using hq3
          | 1 => simpa using hq4
          | j + 2 => exact (hm3 (j + 2) (by omega) hj).symm
        by_cases hbest : matchExtend window strstart curMatch > bestLen
        · rw [if_pos hbest]
          by_cases hnice : matchExtend window strstart curMatch ≥ niceMatch
          · rw [if_pos hnice]
            right
            exact ⟨hbest, hm2, by omega, hcur, heq⟩
          · rw [if_neg hnice]
            rcases ih (prev (curMatch % WSIZE))
                (matchExtend window strstart curMatch) curMatch
                (if matchExtend window strstart curMatch ≥
                    strstart + matchExtend window strstart curMatch then
                  window (strstart + matchExtend window strstart curMatch - 1)
                 else scanEnd1)
                (if matchExtend window strstart curMatch ≥
                    strstart + matchExtend window strstart curMatch then
                  window (strstart + matchExtend window strstart curMatch)
                 else scanEnd)
                (hprev (curMatch % WSIZE)) with hl | hr
            · right
              rw [hl]
              exact ⟨hbest, hm2, by omega, hcur, heq⟩
            · right
              obtain ⟨hr1, hr2, hr3, hr4, hr5⟩ := hr
              exact ⟨by omega, hr2, hr3, hr4, hr5⟩
        · rw [if_neg hbest]
          exact ih (prev (curMatch % WSIZE)) bestLen matchStart scanEnd1 scanEnd
            (hprev (curMatch % WSIZE))

/-! ## Claim C4 -/

/-- C4: every (distance, length) match token the fast deflate loop emits
    satisfies `MIN_MATCH <= length <= MAX_MATCH` and
    `1 <= distance <= 32768` (in fact at most MAX_DIST = 16384), and the
    window bytes at `strstart - distance` equal the bytes at the cursor
    for the full emitted length, so the source's own `check_match`
    assertion passes.  Hypotheses: every `prev` chain entry points before
    the cursor (the hash-chain invariant: entries are earlier insertion
    heads), and the leftover `match_length` is below MIN_MATCH (the
    source's own loop-invariant comment at src/deflate.rs line 225). -/
theorem C4_emitted_match_token_valid (window prev : Nat → Nat)
    (strstart lookahead hashHead ml0 ms0 gm nm mc dist len : Nat)
    (hprev : ∀ i, prev i < strstart) (hml0 : ml0 < MIN_MATCH)
    (h : deflate_fast_token window prev strstart lookahead hashHead ml0 ms0
        gm nm mc = some (dist, len)) :
    MIN_MATCH ≤ len ∧ len ≤ MAX_MATCH ∧ 1 ≤ dist ∧ dist ≤ 32768 ∧
    (∀ j, j < len → window (strstart - dist + j) = window (strstart + j)) ∧
    check_match window strstart (strstart - dist) len = true := by
  have hmm3 : MIN_MATCH = 3 := rfl
  have hmd : MAX_DIST = 16384 := rfl
  simp only [deflate_fast_token] at h
  by_cases hg : hashHead ≠ 0 ∧ strstart > hashHead ∧
      strstart - hashHead ≤ MAX_DIST ∧ strstart ≤ WINDOW_SIZE - MIN_LOOKAHEAD
  · rw [if_pos hg] at h
    simp only [] at h
    have hlm : longest_match window prev strstart (MIN_MATCH - 1) gm nm mc ms0
        hashHead =
        lmGo window prev strstart
          (if strstart > MAX_DIST then strstart - MAX_DIST else 0) nm
          (if MIN_MATCH - 1 ≥ gm then mc / 4 else mc) hashHead (MIN_MATCH - 1)
          ms0 (window (strstart + (MIN_MATCH - 1) - 1))
          (window (strstart + (MIN_MATCH - 1))) := rfl
    have hspec := lmGo_spec window prev strstart
      (if strstart > MAX_DIST then strstart - MAX_DIST else 0) nm hprev
      (if MIN_MATCH - 1 ≥ gm then mc / 4 else mc) hashHead (MIN_MATCH - 1) ms0
      (window (strstart + (MIN_MATCH - 1) - 1))
      (window (strstart + (MIN_MATCH - 1))) hg.2.1
    rw [← hlm] at hspec
    set r := longest_match window prev strstart (MIN_MATCH - 1) gm nm mc
      ms0 hashHead with hrdef
    set mlv := if r.1 > lookahead then lookahead else r.1 with hmlv
    have hle : mlv ≤ r.1 := by
      rw [hmlv]
      split <;> omega
    split at h
    next hge =>
      rw [Option.some.injEq, Prod.mk.injEq] at h
      obtain ⟨hdist, hlen⟩ := h
      rcases hspec with hl | hr
      · rw [hl] at hle
        simp only [] at hle
        omega
      · obtain ⟨hr1, hr2, hr3, hr4, hr5⟩ := hr
        have hlenle : len ≤ r.1 := by omega
        have hlenge : MIN_MATCH ≤ len := by omega
        have hdist1 : 1 ≤ dist := by omega
        have hdist2 : dist ≤ 32768 := by
          by_cases hss : strstart > MAX_DIST
          · rw [if_pos hss] at hr3
            omega
          · rw [if_neg hss] at hr3
            omega
        have hpos : strstart - dist = r.2 := by omega
        have heq : ∀ j, j < len → window (strstart - dist + j) =
            window (strstart + j) := by
          intro j hj
          rw [hpos]
          exact hr5 j (by omega)
        refine ⟨hlenge, by omega, hdist1, hdist2, heq, ?_⟩
        rw [check_match, List.all_eq_true]
        intro j hj
        rw [beq_iff_eq]
        exact heq j (List.mem_range.mp hj)
    next => exact absurd h (by simp)
  · rw [if_neg hg] at h
    simp only [] at h
    split at h
    next hge => omega
    next => exact absurd h (by simp)

/-- Window contents for the C4 witness: the bytes at 5..7 repeat at
    10..12, giving a match of length 5 at distance 5 for a cursor at 10. -/
def c4_window : Nat → Nat :=
  fun i => if (5 ≤ i ∧ i < 8) ∨ (10 ≤ i ∧ i < 13) then 65 else 0

/-- Witness for C4: with cursor 10 and hash head 5 the fast loop emits
    the token (distance 5, length 5), whose bounds and window agreement
    follow from the theorem. -/
theorem C4_witness :
    deflate_fast_token c4_window (fun _ => 0) 10 100 5 0 0 4 8 4 = some (5, 5) ∧
    MIN_MATCH ≤ 5 ∧ 5 ≤ MAX_MATCH ∧ 1 ≤ 5 ∧ 5 ≤ 32768 ∧
    check_match c4_window 10 (10 - 5) 5 = true := by
  have hemit : deflate_fast_token c4_window (fun _ => 0) 10 100 5 0 0 4 8 4 =
      some (5, 5) := by decide
  have h := C4_emitted_match_token_valid c4_window (fun _ => 0) 10 100 5 0 0
    4 8 4 5 5 (fun _ => Nat.zero_lt_succ 9) (by decide) hemit
  exact ⟨hemit, h.1, h.2.1, h.2.2.1, h.2.2.2.1, h.2.2.2.2.2⟩
